import Mathlib

/-!
# USB CDC event callbacks (`R2P2/src/usb_cdc.c`)

A shallow embedding of the two TinyUSB callbacks `tud_cdc_line_state_cb` and
`tud_cdc_rx_cb` together with the helper `rp2040js_debug_puts`.

* The only observable state is the debug sink: the sequence of characters that
  were handed to `putchar_raw`, oldest first.
* A C string is the list of characters stored from the address `s` onwards to
  the end of the object; a string literal is its characters followed by NUL.
  Reading past the end of the object is undefined in C and is `none` here.
* The preprocessor symbol `R2P2_RP2040JS` is a boolean parameter.
-/

set_option linter.unusedVariables false
set_option maxRecDepth 8192

namespace UsbCdc

/-- The debug sink: every character passed to `putchar_raw`, oldest first. -/
abbrev Sink := List Char

/-- The terminator of a C string. -/
def NUL : Char := Char.ofNat 0

/-- The array a C string literal denotes: its characters followed by NUL. -/
def literal (s : String) : List Char := s.toList ++ [NUL]

/-- The platform primitive `putchar_raw(c)`: one character goes to the sink. -/
def putchar_raw (c : Char) (sink : Sink) : Sink := sink ++ [c]

/-- The loop `while (*s) { putchar_raw(*s++); }` over the characters stored at
`s`. An empty list means the read `*s` left the object. -/
def rp2040js_debug_puts : List Char → Sink → Option Sink
  | [], _ => none
  | c :: s, sink =>
    if c ≠ NUL then rp2040js_debug_puts s (putchar_raw c sink) else some sink

/-- The callback `tud_cdc_line_state_cb(itf, dtr, rts)`; the first argument
tells whether `R2P2_RP2040JS` is defined. -/
def tud_cdc_line_state_cb (R2P2_RP2040JS : Bool) (itf : Nat) (dtr rts : Bool)
    (sink : Sink) : Option Sink :=
  if dtr then
    if R2P2_RP2040JS then
      rp2040js_debug_puts (literal "[rp2040js] tud_cdc_line_state_cb dtr=1\n") sink
    else some sink
  else
    if R2P2_RP2040JS then
      rp2040js_debug_puts (literal "[rp2040js] tud_cdc_line_state_cb dtr=0\n") sink
    else some sink

/-- The callback `tud_cdc_rx_cb(itf)`; the first argument tells whether
`R2P2_RP2040JS` is defined. -/
def tud_cdc_rx_cb (R2P2_RP2040JS : Bool) (itf : Nat) (sink : Sink) : Option Sink :=
  if R2P2_RP2040JS then
    rp2040js_debug_puts (literal "[rp2040js] tud_cdc_rx_cb\n") sink
  else some sink

/-- One invocation of a callback by the USB device stack. -/
inductive Event where
  | line_state (itf : Nat) (dtr rts : Bool)
  | rx (itf : Nat)
  deriving DecidableEq, Repr

/-- An event reduced to its kind and, for a line-state change, its `dtr`. -/
inductive Reduced where
  | line_state (dtr : Bool)
  | rx
  deriving DecidableEq, Repr

/-- Forget the interface id and `rts` of an event. -/
def Event.reduce : Event → Reduced
  | .line_state _ dtr _ => .line_state dtr
  | .rx _ => .rx

/-- The stack invokes the callback that belongs to the event. -/
def Event.fire (R2P2_RP2040JS : Bool) : Event → Sink → Option Sink
  | .line_state itf dtr rts, sink => tud_cdc_line_state_cb R2P2_RP2040JS itf dtr rts sink
  | .rx itf, sink => tud_cdc_rx_cb R2P2_RP2040JS itf sink

/-- The events are delivered one after the other, each on the sink the
previous one left. -/
def run (R2P2_RP2040JS : Bool) : List Event → Sink → Option Sink
  | [], sink => some sink
  | e :: es, sink => (e.fire R2P2_RP2040JS sink).bind (run R2P2_RP2040JS es)

/-- The same call `f(...)` made `n` times in a row. -/
def callN (f : Sink → Option Sink) : Nat → Sink → Option Sink
  | 0, sink => some sink
  | n + 1, sink => (f sink).bind (callN f n)

/-- The text one event puts on an empty sink in the `R2P2_RP2040JS` build. -/
def Event.line (e : Event) : List Char := (e.fire true []).getD []

/-- The newline character that ends every trace message. -/
def LF : Char := Char.ofNat 10

/-- What `rp2040js_debug_puts` writes for a terminated string: the characters
in front of the first NUL are appended to the sink, in order. -/
theorem debug_puts_terminated (s : List Char) (h : NUL ∈ s) (sink : Sink) :
    rp2040js_debug_puts s sink = some (sink ++ s.takeWhile (fun c => c ≠ NUL)) := by
  induction s generalizing sink with
  | nil => simp at h
  | cons c t ih =>
    by_cases hc : c = NUL
    · simp [rp2040js_debug_puts, hc]
    · have ht : NUL ∈ t := by
        rcases List.mem_cons.mp h with h1 | h1
        · exact absurd h1.symm hc
        · exact h1
      simp [rp2040js_debug_puts, hc, ih ht, putchar_raw]

/-- Writing a literal that holds no NUL appends the whole literal. -/
theorem debug_puts_literal (s : String) (h : NUL ∉ s.toList) (sink : Sink) :
    rp2040js_debug_puts (literal s) sink = some (sink ++ s.toList) := by
  have hm : NUL ∈ literal s := by simp [literal]
  rw [debug_puts_terminated _ hm]
  congr 2
  unfold literal
  rw [List.takeWhile_append_of_pos]
  · simp
  · intro c hc
    have : c ≠ NUL := fun e => h (e ▸ hc)
    simpa using this

/-- A split of a string at a NUL with no NUL in front of it pins down what
`rp2040js_debug_puts` writes. -/
theorem debug_puts_split (pre post : List Char) (h : NUL ∉ pre) (sink : Sink) :
    rp2040js_debug_puts (pre ++ NUL :: post) sink = some (sink ++ pre) := by
  induction pre generalizing sink with
  | nil => simp [rp2040js_debug_puts]
  | cons c t ih =>
    have hc : c ≠ NUL := fun e => h (by simp [e])
    have ht : NUL ∉ t := fun e => h (List.mem_cons_of_mem _ e)
    simp [rp2040js_debug_puts, hc, ih ht, putchar_raw]

/-- Every terminated string splits at its first NUL. -/
theorem first_nul_split (s : List Char) (h : NUL ∈ s) :
    ∃ pre post, s = pre ++ NUL :: post ∧ NUL ∉ pre := by
  induction s with
  | nil => simp at h
  | cons c t ih =>
    by_cases hc : c = NUL
    · exact ⟨[], t, by simp [hc], by simp⟩
    · have ht : NUL ∈ t := by
        rcases List.mem_cons.mp h with h1 | h1
        · exact absurd h1.symm hc
        · exact h1
      obtain ⟨pre, post, hs, hp⟩ := ih ht
      refine ⟨c :: pre, post, by simp [hs], ?_⟩
      intro hm
      rcases List.mem_cons.mp hm with h1 | h1
      · exact hc h1.symm
      · exact hp h1

/-- In the `R2P2_RP2040JS` build a line-state change with `dtr` set appends
its message. -/
theorem line_state_sim_set (itf : Nat) (rts : Bool) (sink : Sink) :
    tud_cdc_line_state_cb true itf true rts sink
      = some (sink ++ "[rp2040js] tud_cdc_line_state_cb dtr=1\n".toList) := by
  simp only [tud_cdc_line_state_cb, if_true]
  exact debug_puts_literal _ (by decide) sink

/-- In the `R2P2_RP2040JS` build a line-state change with `dtr` clear appends
its message. -/
theorem line_state_sim_clear (itf : Nat) (rts : Bool) (sink : Sink) :
    tud_cdc_line_state_cb true itf false rts sink
      = some (sink ++ "[rp2040js] tud_cdc_line_state_cb dtr=0\n".toList) := by
  simp only [tud_cdc_line_state_cb, if_true, Bool.false_eq_true, if_false]
  exact debug_puts_literal _ (by decide) sink

/-- In the `R2P2_RP2040JS` build the receive callback appends its message. -/
theorem rx_sim (itf : Nat) (sink : Sink) :
    tud_cdc_rx_cb true itf sink = some (sink ++ "[rp2040js] tud_cdc_rx_cb\n".toList) := by
  simp only [tud_cdc_rx_cb, if_true]
  exact debug_puts_literal _ (by decide) sink

/-- With `R2P2_RP2040JS` not defined both callbacks leave the sink alone. -/
theorem silent_build (itf : Nat) (dtr rts : Bool) (sink : Sink) :
    tud_cdc_line_state_cb false itf dtr rts sink = some sink
      ∧ tud_cdc_rx_cb false itf sink = some sink := by
  cases dtr <;> simp [tud_cdc_line_state_cb, tud_cdc_rx_cb]

/-- A call that appends a fixed line, made `n` times, appends `n` copies. -/
theorem callN_append (f : Sink → Option Sink) (line : List Char)
    (hf : ∀ sink, f sink = some (sink ++ line)) (n : Nat) (sink : Sink) :
    callN f n sink = some (sink ++ (List.replicate n line).flatten) := by
  induction n generalizing sink with
  | zero => simp [callN]
  | succ k ih => simp [callN, hf, ih, List.replicate_succ]

/-- The text of a line-state event. -/
theorem line_of_line_state (itf : Nat) (dtr rts : Bool) :
    (Event.line_state itf dtr rts).line
      = if dtr then "[rp2040js] tud_cdc_line_state_cb dtr=1\n".toList
        else "[rp2040js] tud_cdc_line_state_cb dtr=0\n".toList := by
  cases dtr
  · simp [Event.line, Event.fire, line_state_sim_clear]
  · simp [Event.line, Event.fire, line_state_sim_set]

/-- The text of a receive event. -/
theorem line_of_rx (itf : Nat) :
    (Event.rx itf).line = "[rp2040js] tud_cdc_rx_cb\n".toList := by
  simp [Event.line, Event.fire, rx_sim]

/-- In the `R2P2_RP2040JS` build an event appends its line to any sink. -/
theorem fire_sim (e : Event) (sink : Sink) : e.fire true sink = some (sink ++ e.line) := by
  cases e with
  | line_state itf dtr rts =>
    rw [line_of_line_state]
    cases dtr
    · simpa [Event.fire] using line_state_sim_clear itf rts sink
    · simpa [Event.fire] using line_state_sim_set itf rts sink
  | rx itf =>
    rw [line_of_rx]
    simpa [Event.fire] using rx_sim itf sink

/-- In the `R2P2_RP2040JS` build a run appends the lines of its events. -/
theorem run_sim (es : List Event) (sink : Sink) :
    run true es sink = some (sink ++ (es.map Event.line).flatten) := by
  induction es generalizing sink with
  | nil => simp [run]
  | cons e t ih => simp [run, fire_sim, ih]

/-- Every line is a newline-free body followed by one newline. -/
theorem line_shape (e : Event) : ∃ body, e.line = body ++ [LF] ∧ LF ∉ body := by
  cases e with
  | line_state itf dtr rts =>
    rw [line_of_line_state]
    cases dtr
    · exact ⟨"[rp2040js] tud_cdc_line_state_cb dtr=0".toList, by decide, by decide⟩
    · exact ⟨"[rp2040js] tud_cdc_line_state_cb dtr=1".toList, by decide, by decide⟩
  | rx itf =>
    rw [line_of_rx]
    exact ⟨"[rp2040js] tud_cdc_rx_cb".toList, by decide, by decide⟩

/-- Events with the same line have the same kind and `dtr`. -/
theorem line_inj (e1 e2 : Event) (h : e1.line = e2.line) : e1.reduce = e2.reduce := by
  cases e1 with
  | line_state i1 d1 r1 =>
    cases e2 with
    | line_state i2 d2 r2 =>
      rw [line_of_line_state, line_of_line_state] at h
      cases d1 <;> cases d2
      · rfl
      · exact absurd h (by decide)
      · exact absurd h (by decide)
      · rfl
    | rx i2 =>
      rw [line_of_line_state, line_of_rx] at h
      cases d1
      · exact absurd h (by decide)
      · exact absurd h (by decide)
  | rx i1 =>
    cases e2 with
    | line_state i2 d2 r2 =>
      rw [line_of_line_state, line_of_rx] at h
      cases d2
      · exact absurd h (by decide)
      · exact absurd h (by decide)
    | rx i2 => rfl

/-- Two streams that start with a newline-terminated line agree on that line
and on what follows it. -/
theorem split_at_newline (a b r1 r2 : List Char) (ha : LF ∉ a) (hb : LF ∉ b)
    (h : a ++ LF :: r1 = b ++ LF :: r2) : a = b ∧ r1 = r2 := by
  induction a generalizing b with
  | nil =>
    cases b with
    | nil => simpa using h
    | cons y b2 =>
      have hy : LF = y := by simpa using (List.cons.inj h).1
      exact absurd (by simp [hy]) hb
  | cons x a2 ih =>
    cases b with
    | nil =>
      have hx : x = LF := by simpa using (List.cons.inj h).1
      exact absurd (by simp [hx]) ha
    | cons y b2 =>
      have hxy : x = y := (List.cons.inj h).1
      have ht : a2 ++ LF :: r1 = b2 ++ LF :: r2 := (List.cons.inj h).2
      have ha2 : LF ∉ a2 := fun e => ha (List.mem_cons_of_mem _ e)
      have hb2 : LF ∉ b2 := fun e => hb (List.mem_cons_of_mem _ e)
      obtain ⟨h1, h2⟩ := ih b2 ha2 hb2 ht
      exact ⟨by rw [hxy, h1], h2⟩

/-- The concatenated lines of a sequence of events determine the sequence of
reduced events. -/
theorem lines_inj (es1 es2 : List Event)
    (h : (es1.map Event.line).flatten = (es2.map Event.line).flatten) :
    es1.map Event.reduce = es2.map Event.reduce := by
  induction es1 generalizing es2 with
  | nil =>
    cases es2 with
    | nil => rfl
    | cons e2 t2 =>
      obtain ⟨b2, hb2, _⟩ := line_shape e2
      simp [hb2] at h
  | cons e1 t1 ih =>
    cases es2 with
    | nil =>
      obtain ⟨b1, hb1, _⟩ := line_shape e1
      simp [hb1] at h
    | cons e2 t2 =>
      obtain ⟨b1, hb1, hn1⟩ := line_shape e1
      obtain ⟨b2, hb2, hn2⟩ := line_shape e2
      have h2 : b1 ++ LF :: (t1.map Event.line).flatten
          = b2 ++ LF :: (t2.map Event.line).flatten := by
        simpa [hb1, hb2] using h
      obtain ⟨hb, ht⟩ := split_at_newline _ _ _ _ hn1 hn2 h2
      have hl : e1.line = e2.line := by rw [hb1, hb2, hb]
      simp [line_inj e1 e2 hl, ih t2 ht]

/-! ## Properties of the specification -/

/-- C1 as stated fails: with `R2P2_RP2040JS` defined, the call
`tud_cdc_line_state_cb(0, true, false)` on an empty sink does not leave the
text `"[sim] line-state dtr=1\n"` there. -/
theorem C1_sim_text_refuted :
    tud_cdc_line_state_cb true 0 true false [] ≠ some "[sim] line-state dtr=1\n".toList := by
  decide

/-- C1 amended: with `R2P2_RP2040JS` defined, for every interface id, every
`rts` and every prior sink, `tud_cdc_line_state_cb(itf, true, rts)` returns and
appends exactly `"[rp2040js] tud_cdc_line_state_cb dtr=1\n"` to the sink. -/
theorem C1_line_state_dtr_set (itf : Nat) (rts : Bool) (sink : Sink) :
    tud_cdc_line_state_cb true itf true rts sink
      = some (sink ++ "[rp2040js] tud_cdc_line_state_cb dtr=1\n".toList) :=
  line_state_sim_set itf rts sink

/-- C2 as stated fails: with `R2P2_RP2040JS` defined, the call
`tud_cdc_line_state_cb(0, false, false)` on an empty sink does not leave the
text `"[sim] line-state dtr=0\n"` there. -/
theorem C2_sim_text_refuted :
    tud_cdc_line_state_cb true 0 false false [] ≠ some "[sim] line-state dtr=0\n".toList := by
  decide

/-- C2 amended: with `R2P2_RP2040JS` defined, for every interface id, every
`rts` and every prior sink, `tud_cdc_line_state_cb(itf, false, rts)` returns
and appends exactly `"[rp2040js] tud_cdc_line_state_cb dtr=0\n"` to the sink. -/
theorem C2_line_state_dtr_clear (itf : Nat) (rts : Bool) (sink : Sink) :
    tud_cdc_line_state_cb true itf false rts sink
      = some (sink ++ "[rp2040js] tud_cdc_line_state_cb dtr=0\n".toList) :=
  line_state_sim_clear itf rts sink

/-- C3 as stated fails: with `R2P2_RP2040JS` defined, the call
`tud_cdc_rx_cb(0)` on an empty sink does not leave the text
`"[sim] data-received\n"` there. -/
theorem C3_sim_text_refuted :
    tud_cdc_rx_cb true 0 [] ≠ some "[sim] data-received\n".toList := by
  decide

/-- C3 amended: with `R2P2_RP2040JS` defined, for every interface id and every
prior sink, `tud_cdc_rx_cb(itf)` returns and appends exactly
`"[rp2040js] tud_cdc_rx_cb\n"` to the sink. -/
theorem C3_rx_trace (itf : Nat) (sink : Sink) :
    tud_cdc_rx_cb true itf sink = some (sink ++ "[rp2040js] tud_cdc_rx_cb\n".toList) :=
  rx_sim itf sink

/-- C4: with `R2P2_RP2040JS` not defined, `tud_cdc_line_state_cb` (for every
`itf`, `dtr`, `rts`) and `tud_cdc_rx_cb` (for every `itf`) return with the sink
exactly as it was: nothing is written. -/
theorem C4_silent_build (itf : Nat) (dtr rts : Bool) (sink : Sink) :
    tud_cdc_line_state_cb false itf dtr rts sink = some sink
      ∧ tud_cdc_rx_cb false itf sink = some sink :=
  silent_build itf dtr rts sink

/-- C5: in either build, for every `itf`, `dtr` and prior sink, two calls of
`tud_cdc_line_state_cb` that differ only in `rts` leave the same sink. -/
theorem C5_rts_ignored (cfg : Bool) (itf : Nat) (dtr rts1 rts2 : Bool) (sink : Sink) :
    tud_cdc_line_state_cb cfg itf dtr rts1 sink
      = tud_cdc_line_state_cb cfg itf dtr rts2 sink := by
  simp [tud_cdc_line_state_cb]

/-- C6: in either build, the interface id is ignored: two calls of
`tud_cdc_line_state_cb`, or two of `tud_cdc_rx_cb`, that differ only in `itf`
leave the same sink. -/
theorem C6_itf_ignored (cfg : Bool) (itf1 itf2 : Nat) (dtr rts : Bool) (sink : Sink) :
    tud_cdc_line_state_cb cfg itf1 dtr rts sink
        = tud_cdc_line_state_cb cfg itf2 dtr rts sink
      ∧ tud_cdc_rx_cb cfg itf1 sink = tud_cdc_rx_cb cfg itf2 sink := by
  simp [tud_cdc_line_state_cb, tud_cdc_rx_cb]

/-- C8 as stated fails: with `R2P2_RP2040JS` defined, the sequence
`tud_cdc_line_state_cb(0, true, false); tud_cdc_rx_cb(0);
tud_cdc_line_state_cb(0, false, false)` from an empty sink does not leave the
stream `"[sim] line-state dtr=1\n[sim] data-received\n[sim] line-state dtr=0\n"`. -/
theorem C8_sim_stream_refuted :
    run true [.line_state 0 true false, .rx 0, .line_state 0 false false] []
      ≠ some "[sim] line-state dtr=1\n[sim] data-received\n[sim] line-state dtr=0\n".toList := by
  decide

/-- C8 amended: with `R2P2_RP2040JS` defined, that sequence from an empty sink
leaves exactly the three messages of the source, in call order. -/
theorem C8_scenario_stream :
    run true [.line_state 0 true false, .rx 0, .line_state 0 false false] []
      = some ("[rp2040js] tud_cdc_line_state_cb dtr=1\n".toList
          ++ "[rp2040js] tud_cdc_rx_cb\n".toList
          ++ "[rp2040js] tud_cdc_line_state_cb dtr=0\n".toList) := by
  decide

/-- C9: for a string `s` that holds a NUL, `rp2040js_debug_puts s` returns,
and `s` splits as `pre ++ NUL :: post` with no NUL in `pre` such that the sink
afterwards is the old sink followed by `pre`, which is also the result of
calling `putchar_raw` once per character of `pre` from first to last; no NUL
is among the characters added, and when `s` starts with NUL the sink is left
as it was. -/
theorem C9_debug_puts (s : List Char) (h : NUL ∈ s) (sink : Sink) :
    ∃ pre post, s = pre ++ NUL :: post ∧ NUL ∉ pre
      ∧ rp2040js_debug_puts s sink = some (sink ++ pre)
      ∧ sink ++ pre = pre.foldl (fun acc c => putchar_raw c acc) sink
      ∧ (s.head? = some NUL → rp2040js_debug_puts s sink = some sink) := by
  obtain ⟨pre, post, hs, hp⟩ := first_nul_split s h
  refine ⟨pre, post, hs, hp, ?_, ?_, ?_⟩
  · rw [hs]; exact debug_puts_split pre post hp sink
  · clear hs hp
    induction pre generalizing sink with
    | nil => simp
    | cons c t ih => rw [List.foldl_cons, ← ih]; simp [putchar_raw]
  · intro hh
    cases s with
    | nil => simp at hh
    | cons c t =>
      have hc : c = NUL := by simpa using hh
      simp [rp2040js_debug_puts, hc]

/-- C9 at the string `"ok"` followed by NUL and one more character. -/
theorem C9_debug_puts_witness :
    NUL ∈ ['o', 'k', NUL, 'x'] ∧
    ∃ pre post, ['o', 'k', NUL, 'x'] = pre ++ NUL :: post ∧ NUL ∉ pre
      ∧ rp2040js_debug_puts ['o', 'k', NUL, 'x'] ['>'] = some (['>'] ++ pre)
      ∧ ['>'] ++ pre = pre.foldl (fun acc c => putchar_raw c acc) ['>']
      ∧ ((['o', 'k', NUL, 'x'] : List Char).head? = some NUL →
          rp2040js_debug_puts ['o', 'k', NUL, 'x'] ['>'] = some ['>']) :=
  ⟨by decide, C9_debug_puts ['o', 'k', NUL, 'x'] (by decide) ['>']⟩

/-- C7: in either build and for every argument tuple there is one line such
that a call of `tud_cdc_line_state_cb` (and likewise of `tud_cdc_rx_cb`) on any
prior sink appends that line, and `N` calls in a row on any prior sink append
exactly `N` copies of it: no call depends on an earlier one. -/
theorem C7_repeated_calls (cfg : Bool) (itf : Nat) (dtr rts : Bool) :
    (∃ line, ∀ (N : Nat) (sink : Sink),
        tud_cdc_line_state_cb cfg itf dtr rts sink = some (sink ++ line)
        ∧ callN (tud_cdc_line_state_cb cfg itf dtr rts) N sink
            = some (sink ++ (List.replicate N line).flatten))
    ∧ (∃ line, ∀ (N : Nat) (sink : Sink),
        tud_cdc_rx_cb cfg itf sink = some (sink ++ line)
        ∧ callN (tud_cdc_rx_cb cfg itf) N sink
            = some (sink ++ (List.replicate N line).flatten)) := by
  have hl : ∃ line, ∀ sink, tud_cdc_line_state_cb cfg itf dtr rts sink = some (sink ++ line) := by
    cases cfg
    · exact ⟨[], fun sink => by simpa using (silent_build itf dtr rts sink).1⟩
    · cases dtr
      · exact ⟨_, line_state_sim_clear itf rts⟩
      · exact ⟨_, line_state_sim_set itf rts⟩
  have hr : ∃ line, ∀ sink, tud_cdc_rx_cb cfg itf sink = some (sink ++ line) := by
    cases cfg
    · exact ⟨[], fun sink => by simpa using (silent_build itf dtr rts sink).2⟩
    · exact ⟨_, rx_sim itf⟩
  obtain ⟨l1, h1⟩ := hl
  obtain ⟨l2, h2⟩ := hr
  exact ⟨⟨l1, fun N sink => ⟨h1 sink, callN_append _ l1 h1 N sink⟩⟩,
    ⟨l2, fun N sink => ⟨h2 sink, callN_append _ l2 h2 N sink⟩⟩⟩

/-- C10: with `R2P2_RP2040JS` defined, the text an event puts on an empty sink
is non-empty, ends in a newline and holds no other newline; events with the
same text have the same kind and `dtr`; and two sequences of events that
leave the same stream are the same sequence of reduced events. -/
theorem C10_trace_injective :
    (∀ e : Event, ∃ line, e.fire true [] = some line ∧ line ≠ []
        ∧ line.getLast? = some LF ∧ LF ∉ line.dropLast)
    ∧ (∀ e1 e2 : Event, e1.fire true [] = e2.fire true [] → e1.reduce = e2.reduce)
    ∧ (∀ es1 es2 : List Event, run true es1 [] = run true es2 [] →
        es1.map Event.reduce = es2.map Event.reduce) := by
  refine ⟨?_, ?_, ?_⟩
  · intro e
    obtain ⟨body, hb, hn⟩ := line_shape e
    refine ⟨e.line, by simpa using fire_sim e [], ?_, ?_, ?_⟩
    · simp [hb]
    · simp [hb]
    · simpa [hb] using hn
  · intro e1 e2 h
    rw [fire_sim, fire_sim] at h
    exact line_inj e1 e2 (by simpa using h)
  · intro es1 es2 h
    rw [run_sim, run_sim] at h
    exact lines_inj es1 es2 (by simpa using h)

/-- C10 at two runs that differ only in interface ids and `rts`. -/
theorem C10_trace_injective_witness :
    run true [.line_state 0 true false, .rx 0] [] = run true [.line_state 3 true true, .rx 7] []
    ∧ [Event.line_state 0 true false, .rx 0].map Event.reduce
        = [Event.line_state 3 true true, .rx 7].map Event.reduce :=
  ⟨by decide, C10_trace_injective.2.2 _ _ (by decide)⟩

end UsbCdc
